import Mathlib

/-!
Shallow embedding of the treedb crate (src/treedb/src/lib.rs): a
content-addressed tree-and-blob store backed by a SQLite database plus a
sidecar directory for large blobs.

Modelling conventions:
- Bytes are natural numbers; byte strings are lists (Rust Vec of u8, str).
- The blake3 digest primitive is modelled as a free (collision-free)
  constructor term: a content hash of some bytes, or a keyed hash of some
  input under a derive key.  This is the usual idealized model of a
  cryptographic hash; constructor injectivity stands in for collision
  resistance.  Digest.asBytes is an injective byte encoding standing in for
  the 32 raw bytes of a blake3 hash.
- The persistent state (the two SQLite tables plus the blobs directory) is
  a Store value.  Each operation returns the committed state it leaves
  behind together with an Except result: a rolled-back transaction leaves
  the table fields unchanged, while file writes that happened before the
  rollback persist, exactly as on a real filesystem.
- Rust panics (assert!, debug_assert!), IO failures and SQL BUSY errors are
  outside the model; the deterministic error paths of the code (bail!,
  ensure!, primary-key violations, File::create on a read-only file) are
  modelled as Except.error.
-/

namespace TreeDbSpec

/-- Bytes of a byte string (Rust u8 values). -/
abbrev Byte := Nat

/-- Byte strings (Rust Vec of u8 / str contents as raw UTF-8 bytes). -/
abbrev Bytes := List Byte

/-- Strict lexicographic order on raw bytes, ascending: the order of
Rust's BTreeMap over String keys (String comparison in Rust is bytewise
lexicographic on the UTF-8 encoding). -/
def bytesLt : Bytes → Bytes → Bool
  | _, [] => false
  | [], _ :: _ => true
  | a :: as, b :: bs => if a < b then true else if b < a then false else bytesLt as bs

/-- Idealized blake3 digest: either the content hash of some bytes
(blake3::hash) or a keyed hash of some input bytes under a derive key
(blake3::Hasher::new_derive_key followed by updates).  Distinct
constructor arguments give distinct digests, which models collision
resistance. -/
inductive Digest
  | content (bytes : Bytes)
  | keyed (key : Bytes) (input : Bytes)
deriving DecidableEq, Repr

/-- Injective byte encoding of a digest, standing in for the 32 raw bytes
returned by blake3::Hash::as_bytes. -/
def Digest.asBytes : Digest → Bytes
  | .content bs => 0 :: bs
  | .keyed k i => 1 :: k.length :: (k ++ i)

/-- NodeType from the source: a blob child with its executable bit, or a
tree child. -/
inductive NodeType
  | blob (executable : Bool)
  | tree
deriving DecidableEq, Repr

/-- Kind bytes fed to the tree hasher, from Tree::id:
[0,0] for a non-executable blob, [0,1] for an executable blob, [1,0] for a
tree. -/
def nodeTypeBytes : NodeType → Bytes
  | .blob false => [0, 0]
  | .blob true => [0, 1]
  | .tree => [1, 0]

/-- Column encoding of a node type, from insert_tree: (node_type tag,
executable flag). -/
def nodeTypeCols : NodeType → Nat × Bool
  | .blob e => (0, e)
  | .tree => (1, false)

/-- The ASCII bytes of the derive-key string used by Tree::id. -/
def treeIdKey : Bytes := [116, 114, 101, 101, 95, 105, 100]

/-- Model of blake3::Hasher in derive-key mode: it remembers the key and
the concatenation of all update calls.  Consecutive updates flatten into
one byte stream, as for the real hasher. -/
structure Hasher where
  key : Bytes
  data : Bytes
deriving DecidableEq, Repr

/-- Hasher::new_derive_key. -/
def Hasher.newDeriveKey (key : Bytes) : Hasher := ⟨key, []⟩

/-- Hasher::update. -/
def Hasher.update (h : Hasher) (bytes : Bytes) : Hasher := ⟨h.key, h.data ++ bytes⟩

/-- Hasher::finalize. -/
def Hasher.finalize (h : Hasher) : Digest := .keyed h.key h.data

/-- In-memory Tree value: the BTreeMap from child name to (digest, node
type), represented as its canonically ordered entry list (strictly
ascending in bytesLt on names). -/
structure Tree where
  children : List (Bytes × Digest × NodeType)
deriving DecidableEq, Repr

/-- Tree::new. -/
def Tree.new : Tree := ⟨[]⟩

/-- Sorted-map insertion: the effect of BTreeMap::insert on the ordered
entry list.  An existing entry with the same name is overwritten. -/
def insertSorted (name : Bytes) (v : Digest × NodeType) :
    List (Bytes × Digest × NodeType) → List (Bytes × Digest × NodeType)
  | [] => [(name, v)]
  | (n, w) :: rest =>
    if bytesLt name n then (name, v) :: (n, w) :: rest
    else if name = n then (name, v) :: rest
    else (n, w) :: insertSorted name v rest

/-- Tree::add_child.  The source asserts that the name is non-empty and
contains neither a slash nor a NUL byte; the asserts are panics (caller
contract), so the model performs the plain map insertion. -/
def Tree.addChild (t : Tree) (name : Bytes) (id : Digest) (nt : NodeType) : Tree :=
  ⟨insertSorted name (id, nt) t.children⟩

/-- Tree::len. -/
def Tree.len (t : Tree) : Nat := t.children.length

/-- Tree::id, mirroring the source loop: a derive-key hasher over
"tree_id" consumes, for each child in canonical order, the digest bytes,
the two kind bytes, the name bytes, and a single 0 terminator. -/
def Tree.id (t : Tree) : Digest :=
  (t.children.foldl
    (fun h c =>
      (((h.update c.2.1.asBytes).update (nodeTypeBytes c.2.2)).update c.1).update [0])
    (Hasher.newDeriveKey treeIdKey)).finalize

/-- Byte frame of a single child as documented in the spec: 32 raw digest
bytes, two kind bytes, raw name bytes, 0x00 terminator. -/
def childFrame (c : Bytes × Digest × NodeType) : Bytes :=
  c.2.1.asBytes ++ nodeTypeBytes c.2.2 ++ c.1 ++ [0]

/-- Modelled from the spec words for the tree digest invariant: the byte
sequence formed by concatenating the frames of the children in canonical
order. -/
def treeFrame (t : Tree) : Bytes :=
  (t.children.map childFrame).flatten

/-- LARGE_BLOB_THRESHOLD from the source: 1 <<< 16 = 65536. -/
def LARGE_BLOB_THRESHOLD : Nat := 65536

/-- One row of the blobs table: primary key blob_id, nullable data column
(NULL means the bytes live in the blobs directory). -/
structure BlobRow where
  blob_id : Digest
  data : Option Bytes
deriving DecidableEq, Repr

/-- One row of the trees table: primary key (tree_id, child_name). -/
structure TreeRow where
  tree_id : Digest
  child_name : Bytes
  child_id : Digest
  node_type : Nat
  executable : Bool
deriving DecidableEq, Repr

/-- One sidecar file in the blobs directory.  Files are named by the hex
of a digest; hex encoding is injective on digests, so the model keys the
file by the digest itself.  The readonly flag models the writable
permission bits being cleared. -/
structure Sidecar where
  name : Digest
  content : Bytes
  readonly : Bool
deriving DecidableEq, Repr

/-- Committed persistent state of a TreeDb: the two SQLite tables plus the
contents of the blobs directory. -/
structure Store where
  blobs : List BlobRow
  trees : List TreeRow
  sidecars : List Sidecar
deriving DecidableEq, Repr

/-- Fresh store, as created by TreeDb::open on an empty directory. -/
def emptyStore : Store := ⟨[], [], []⟩

/-- SELECT COUNT(*) FROM blobs WHERE blob_id = d. -/
def countBlobRows (s : Store) (d : Digest) : Nat :=
  s.blobs.countP (fun r => decide (r.blob_id = d))

/-- SELECT COUNT(*) FROM trees WHERE tree_id = d, over a row list (used
both for the committed table and for the in-transaction view). -/
def countTreeRows (rows : List TreeRow) (d : Digest) : Nat :=
  rows.countP (fun r => decide (r.tree_id = d))

/-- SELECT data FROM blobs WHERE blob_id = d, as an optional row. -/
def lookupBlobRow (s : Store) (d : Digest) : Option (Option Bytes) :=
  (s.blobs.find? (fun r => decide (r.blob_id = d))).map (fun r => r.data)

/-- Existence and content of the sidecar file named by a digest. -/
def lookupSidecar (s : Store) (d : Digest) : Option (Bytes × Bool) :=
  (s.sidecars.find? (fun e => decide (e.name = d))).map (fun e => (e.content, e.readonly))

/-- Whether the sidecar file named by d exists and is read-only. -/
def sidecarIsReadonly (s : Store) (d : Digest) : Bool :=
  match lookupSidecar s d with
  | some (_, ro) => ro
  | none => false

/-- Writing the sidecar file named d with the given content and readonly
flag (File::create truncates an existing writable file). -/
def setSidecar (l : List Sidecar) (d : Digest) (c : Bytes) (ro : Bool) : List Sidecar :=
  l.filter (fun e => !(decide (e.name = d))) ++ [⟨d, c, ro⟩]

/-- TreeDb::insert_blob.  Hash the bytes; inside an immediate write
transaction, short-circuit when a row already exists; otherwise store the
bytes inline when the length is below LARGE_BLOB_THRESHOLD, else insert a
NULL row, write the sidecar file, commit, and finally mark the sidecar
read-only.  File::create fails when an existing sidecar at that path is
read-only; the transaction then rolls back, leaving the tables unchanged.
The net committed effect of write-then-commit-then-chmod is the sidecar
entry with readonly set. -/
def insert_blob (s : Store) (blob : Bytes) : Store × Except String Digest :=
  let blob_id := Digest.content blob
  if countBlobRows s blob_id == 1 then
    (s, .ok blob_id)
  else if blob.length < LARGE_BLOB_THRESHOLD then
    ({ s with blobs := s.blobs ++ [⟨blob_id, some blob⟩] }, .ok blob_id)
  else if sidecarIsReadonly s blob_id then
    (s, .error "creating file")
  else
    ({ s with
        blobs := s.blobs ++ [⟨blob_id, none⟩],
        sidecars := setSidecar s.sidecars blob_id blob true },
      .ok blob_id)

/-- One source file handed to TreeDb::insert_file, together with the
observations the code makes of it at its successive access points.  A file
that no other process touches has readContent = hashContent = copyContent
with the length fields agreeing, equal mtimes and equal inodes; a race
during the import makes the observations differ. -/
structure SourceFile where
  isFile : Bool
  lenAtOpen : Nat
  readContent : Bytes
  hashContent : Bytes
  copyContent : Bytes
  mtimeBefore : Nat
  mtimeAfter : Nat
  inoBefore : Nat
  inoAfter : Nat
deriving DecidableEq, Repr

/-- TreeDb::insert_file.  Small files (open-time size below the threshold)
are read, capped at the open-time size by Read::take, and handed to
insert_blob.  Large files are hashed, then inside an immediate transaction
a NULL row is inserted and the file is copied to the sidecar path; the
mtime and (on POSIX) inode are then re-checked against the pre-hash
snapshot and the operation fails without committing on a mismatch, which
rolls the tables back but leaves the copied sidecar file in place.  On
success the code then opens the copied file, computes read-only
permissions, and calls set_permissions on the SOURCE file handle, so the
committed sidecar entry keeps readonly = false (the caller's source file
is what becomes read-only). -/
def insert_file (s : Store) (f : SourceFile) : Store × Except String Digest :=
  if !f.isFile then
    (s, .error "not a regular file")
  else if f.lenAtOpen < LARGE_BLOB_THRESHOLD then
    insert_blob s (f.readContent.take f.lenAtOpen)
  else
    let blob_id := Digest.content f.hashContent
    if countBlobRows s blob_id == 1 then
      (s, .ok blob_id)
    else if sidecarIsReadonly s blob_id then
      (s, .error "failed to copy")
    else
      let s1 : Store := { s with sidecars := setSidecar s.sidecars blob_id f.copyContent false }
      if f.mtimeBefore ≠ f.mtimeAfter then
        (s1, .error "file was modified while it was being read")
      else if f.inoBefore ≠ f.inoAfter then
        (s1, .error "file was modified while it was being read")
      else
        ({ s1 with blobs := s1.blobs ++ [⟨blob_id, none⟩] }, .ok blob_id)

/-- TreeDb::get_blob.  First try the sidecar file named by the digest and
return its contents when it exists; otherwise read the data column of the
blobs row.  A missing row yields None (optional() absorbs the
no-rows case); a row whose data column is NULL yields an error, because
the declared result type forces the column to be read as a byte vector
and reading a NULL that way fails with InvalidColumnType, which the
question-mark operator propagates (in an uncorrupted store this branch is
unreachable: every NULL row has its sidecar).  The length and hash checks
in the source are debug assertions, not error returns. -/
def get_blob (s : Store) (blob_id : Digest) : Except String (Option Bytes) :=
  match lookupSidecar s blob_id with
  | some e => .ok (some e.1)
  | none =>
    match lookupBlobRow s blob_id with
    | some (some data) => .ok (some data)
    | some none => .error "InvalidColumnType"
    | none => .ok none

/-- Decoding of a stored (node_type, executable) pair in TreeDb::get_tree:
(0, e) is a blob with executable bit e, (1, false) is a tree, and every
other pair is a corruption error. -/
def decodeNodeType (tag : Nat) (exec : Bool) : Except String NodeType :=
  if tag = 0 then .ok (.blob exec)
  else if tag = 1 && exec == false then .ok .tree
  else .error "unknown node type"

/-- Row loop of TreeDb::get_tree: decode each selected row (failing on an
unrecognized kind pair) and add it to the tree being assembled. -/
def readTreeRows : List TreeRow → Tree → Except String Tree
  | [], t => .ok t
  | r :: rest, t =>
    match decodeNodeType r.node_type r.executable with
    | .error e => .error e
    | .ok nt => readTreeRows rest (t.addChild r.child_name r.child_id nt)

/-- TreeDb::get_tree.  Select the rows with the requested tree_id, decode
each row into a child, assemble a Tree, and report an empty result as
absent. -/
def get_tree (s : Store) (tree_id : Digest) : Except String (Option Tree) :=
  match readTreeRows (s.trees.filter (fun r => decide (r.tree_id = tree_id))) Tree.new with
  | .error e => .error e
  | .ok t => if t.len > 0 then .ok (some t) else .ok none

/-- Referent check of TreeDb::insert_tree for one child, against the
in-transaction view of the trees table: a blob child requires exactly one
blobs row, a tree child requires at least one trees row. -/
def childCheck (s : Store) (acc : List TreeRow) (c : Bytes × Digest × NodeType) :
    Except String Unit :=
  match c.2.2 with
  | .blob _ =>
    if countBlobRows s c.2.1 == 1 then .ok () else .error "blob does not exist"
  | .tree =>
    if countTreeRows acc c.2.1 > 0 then .ok () else .error "tree does not exist"

/-- The trees row insert_tree writes for one child. -/
def mkTreeRow (tid : Digest) (c : Bytes × Digest × NodeType) : TreeRow :=
  ⟨tid, c.1, c.2.1, (nodeTypeCols c.2.2).1, (nodeTypeCols c.2.2).2⟩

/-- Loop body of TreeDb::insert_tree over the children in canonical order,
carrying the in-transaction view of the trees table (the referent checks
and the primary-key constraint both see rows inserted earlier in the same
transaction).  For each child the referent is checked, then the child row
is inserted, which violates the (tree_id, child_name) primary key when
such a row already exists. -/
def insertTreeRows (s : Store) (tid : Digest) :
    List (Bytes × Digest × NodeType) → List TreeRow → Except String (List TreeRow)
  | [], acc => .ok acc
  | c :: rest, acc =>
    match childCheck s acc c with
    | .error e => .error e
    | .ok () =>
      if acc.any (fun r => decide (r.tree_id = tid) && decide (r.child_name = c.1)) then
        .error "UNIQUE constraint failed"
      else
        insertTreeRows s tid rest (acc ++ [mkTreeRow tid c])

/-- TreeDb::insert_tree.  The source rejects empty trees with a panicking
assert (modelled as an error); otherwise it computes the tree id, opens a
transaction, runs the per-child loop, and commits, rolling everything back
when the loop fails. -/
def insert_tree (s : Store) (t : Tree) : Store × Except String Digest :=
  if t.len = 0 then
    (s, .error "cannot insert empty trees")
  else
    let tid := t.id
    match insertTreeRows s tid t.children s.trees with
    | .ok rows => ({ s with trees := rows }, .ok tid)
    | .error e => (s, .error e)

/-- Store invariants from the spec, holding after every committed
transaction of an uncorrupted store: inline rows hold the preimage of
their id and are below the threshold; NULL rows have a sidecar file;
every sidecar file holds the preimage of its name and is at least
threshold-sized; blob_id is a primary key. -/
structure WF (s : Store) : Prop where
  inline_ok : ∀ r ∈ s.blobs, ∀ data, r.data = some data →
    r.blob_id = Digest.content data ∧ data.length < LARGE_BLOB_THRESHOLD
  nullrow_sidecar : ∀ r ∈ s.blobs, r.data = none →
    ∃ e ∈ s.sidecars, e.name = r.blob_id
  sidecar_ok : ∀ e ∈ s.sidecars,
    e.name = Digest.content e.content ∧ LARGE_BLOB_THRESHOLD ≤ e.content.length
  pk_blobs : ∀ d, countBlobRows s d ≤ 1

/-! Helper lemmas. -/

theorem hasher_foldl (children : List (Bytes × Digest × NodeType)) :
    ∀ h : Hasher,
      children.foldl
        (fun h c =>
          (((h.update c.2.1.asBytes).update (nodeTypeBytes c.2.2)).update c.1).update [0]) h
      = ⟨h.key, h.data ++ (children.map childFrame).flatten⟩ := by
  induction children with
  | nil => intro h; simp
  | cons c rest ih =>
    intro h
    rw [List.foldl_cons, ih]
    simp [Hasher.update, childFrame]

theorem find?_setSidecar (l : List Sidecar) (d : Digest) (c : Bytes) (ro : Bool) :
    (setSidecar l d c ro).find? (fun e => decide (e.name = d)) = some ⟨d, c, ro⟩ := by
  induction l with
  | nil => simp [setSidecar, List.find?]
  | cons e rest ih =>
    by_cases h : e.name = d
    · simp [setSidecar, List.filter_cons, h]
    · simp [setSidecar, List.filter_cons, h, List.find?_cons]

theorem lookupVal_setSidecar (s : Store) (l : List Sidecar) (d : Digest) (c : Bytes)
    (ro : Bool) (h : s.sidecars = setSidecar l d c ro) :
    lookupSidecar s d = some (c, ro) := by
  simp [lookupSidecar, h, find?_setSidecar]

theorem tree_id_frame (t : Tree) :
    t.id = Digest.keyed treeIdKey (treeFrame t) := by
  unfold Tree.id
  rw [hasher_foldl]
  simp [Hasher.finalize, Hasher.newDeriveKey, treeFrame]

/-- C3: For every Tree value, its digest equals the keyed hash with
domain key "tree_id" over the byte sequence formed by concatenating, for
each child in canonical order, the raw digest bytes, the two kind bytes
([0,0] non-executable blob, [0,1] executable blob, [1,0] tree), the raw
name bytes, and a single 0x00 terminator. -/
theorem tree_id_eq_keyed_frame (t : Tree) :
    t.id = Digest.keyed treeIdKey (treeFrame t) :=
  tree_id_frame t

/-- C10: For every source file whose size observed at open time is below
the threshold, insert_file reads at most that observed number of bytes
(Read::take) and hands the result to insert_blob, so the inserted blob's
length never exceeds the open-time size snapshot even if another process
grows the file concurrently. -/
theorem insert_file_small_capped (s : Store) (f : SourceFile)
    (hfile : f.isFile = true) (hlen : f.lenAtOpen < LARGE_BLOB_THRESHOLD) :
    insert_file s f = insert_blob s (f.readContent.take f.lenAtOpen) ∧
      (f.readContent.take f.lenAtOpen).length ≤ f.lenAtOpen := by
  refine ⟨by simp [insert_file, hfile, hlen], ?_⟩
  simp [List.length_take]

/-- Witness for C10 at a concrete 5-byte file whose open-time size
snapshot was 3 bytes. -/
theorem insert_file_small_capped_witness :
    (SourceFile.mk true 3 [9, 8, 7, 6, 5] [] [] 0 0 0 0).isFile = true ∧
      (SourceFile.mk true 3 [9, 8, 7, 6, 5] [] [] 0 0 0 0).lenAtOpen < LARGE_BLOB_THRESHOLD ∧
      (insert_file emptyStore (SourceFile.mk true 3 [9, 8, 7, 6, 5] [] [] 0 0 0 0) =
          insert_blob emptyStore (([9, 8, 7, 6, 5] : Bytes).take 3) ∧
        (([9, 8, 7, 6, 5] : Bytes).take 3).length ≤ 3) :=
  ⟨rfl, by decide,
    insert_file_small_capped emptyStore (SourceFile.mk true 3 [9, 8, 7, 6, 5] [] [] 0 0 0 0)
      rfl (by decide)⟩

theorem insert_file_large_ok (s : Store) (f : SourceFile)
    (hfile : f.isFile = true)
    (hlen : ¬ f.lenAtOpen < LARGE_BLOB_THRESHOLD)
    (hnew : ¬ countBlobRows s (Digest.content f.hashContent) = 1)
    (hro : sidecarIsReadonly s (Digest.content f.hashContent) = false)
    (hmtime : f.mtimeBefore = f.mtimeAfter)
    (hino : f.inoBefore = f.inoAfter) :
    insert_file s f =
      ({ s with
          blobs := s.blobs ++ [⟨Digest.content f.hashContent, none⟩],
          sidecars := setSidecar s.sidecars (Digest.content f.hashContent) f.copyContent false },
        .ok (Digest.content f.hashContent)) := by
  simp [insert_file, hfile, hlen, hnew, hro, hmtime, hino]

/-- A normal 65536-byte source file, untouched during the import. -/
def bigContent : Bytes := List.replicate 65536 7

/-- The file above as the observations insert_file makes of it: a regular
file, all three reads agree, mtime and inode stable. -/
def bigSourceFile : SourceFile :=
  ⟨true, 65536, bigContent, bigContent, bigContent, 5, 5, 9, 9⟩

/-- C1 (failing evaluation): importing an untouched 65536-byte regular
file into an empty store succeeds, the sidecar file named by the digest
exists, but its writable permission bits are still set: the code computes
read-only permissions from the copied file and then calls set_permissions
on the source file handle instead of the copied one. -/
theorem insert_file_sidecar_left_writable :
    (insert_file emptyStore bigSourceFile).2 = .ok (Digest.content bigContent) ∧
      lookupSidecar (insert_file emptyStore bigSourceFile).1 (Digest.content bigContent) =
        some (bigContent, false) := by
  have h := insert_file_large_ok emptyStore bigSourceFile rfl
    (by decide) (by simp [countBlobRows, emptyStore]) rfl rfl rfl
  rw [h]
  exact ⟨rfl, lookupVal_setSidecar _ emptyStore.sidecars _ _ _ rfl⟩

/-- C2 (counterexample input content): a 70000-byte file. -/
def racedContent : Bytes := List.replicate 70000 3

/-- A large source file whose mtime advances between the hash phase and
the post-copy re-check. -/
def racedSourceFile : SourceFile :=
  ⟨true, 70000, racedContent, racedContent, racedContent, 5, 6, 9, 9⟩

/-- A large source file renamed-over during the import: mtime unchanged
but the inode differs at the re-check. -/
def renamedSourceFile : SourceFile :=
  ⟨true, 70000, racedContent, racedContent, racedContent, 5, 5, 9, 10⟩

theorem insert_file_race_aux (s : Store) (f : SourceFile)
    (hfile : f.isFile = true)
    (hlen : ¬ f.lenAtOpen < LARGE_BLOB_THRESHOLD)
    (hnew : ¬ countBlobRows s (Digest.content f.hashContent) = 1)
    (hro : sidecarIsReadonly s (Digest.content f.hashContent) = false)
    (hrace : f.mtimeBefore ≠ f.mtimeAfter ∨ f.inoBefore ≠ f.inoAfter) :
    (insert_file s f).2 = .error "file was modified while it was being read" ∧
      (insert_file s f).1.blobs = s.blobs ∧
      lookupSidecar (insert_file s f).1 (Digest.content f.hashContent) =
        some (f.copyContent, false) := by
  have hbranch : insert_file s f =
      ({ s with
          sidecars := setSidecar s.sidecars (Digest.content f.hashContent) f.copyContent false },
        .error "file was modified while it was being read") := by
    rcases hrace with h | h
    · simp [insert_file, hfile, hlen, hnew, hro, h, beq_iff_eq]
    · by_cases hm : f.mtimeBefore = f.mtimeAfter
      · simp [insert_file, hfile, hlen, hnew, hro, hm, h, beq_iff_eq]
      · simp [insert_file, hfile, hlen, hnew, hro, hm, beq_iff_eq]
  rw [hbranch]
  exact ⟨rfl, rfl, lookupVal_setSidecar _ s.sidecars _ _ _ rfl⟩

/-- C2 (amended): when the re-checked mtime or inode differs from the
pre-hash snapshot on the large-file path, insert_file returns an error and
the transaction rolls back, so the blobs table is unchanged; but the file
already copied into the blobs directory is left behind as a writable
orphan sidecar (nothing deletes it on the error path). -/
theorem insert_file_race_detected (s : Store) (f : SourceFile)
    (hfile : f.isFile = true)
    (hlen : ¬ f.lenAtOpen < LARGE_BLOB_THRESHOLD)
    (hnew : ¬ countBlobRows s (Digest.content f.hashContent) = 1)
    (hro : sidecarIsReadonly s (Digest.content f.hashContent) = false)
    (hrace : f.mtimeBefore ≠ f.mtimeAfter ∨ f.inoBefore ≠ f.inoAfter) :
    (insert_file s f).2 = .error "file was modified while it was being read" ∧
      (insert_file s f).1.blobs = s.blobs ∧
      lookupSidecar (insert_file s f).1 (Digest.content f.hashContent) =
        some (f.copyContent, false) :=
  insert_file_race_aux s f hfile hlen hnew hro hrace

/-- C2 (counterexample): importing a 70000-byte file whose mtime advances
mid-import fails and leaves no blobs row, but a sidecar file for the
digest IS left behind, contradicting the claim that no sidecar remains. -/
theorem insert_file_race_sidecar_remains :
    (insert_file emptyStore racedSourceFile).2 =
        .error "file was modified while it was being read" ∧
      countBlobRows (insert_file emptyStore racedSourceFile).1
        (Digest.content racedContent) = 0 ∧
      ¬ lookupSidecar (insert_file emptyStore racedSourceFile).1
        (Digest.content racedContent) = none := by
  have h := insert_file_race_aux emptyStore racedSourceFile rfl
    (by decide) (by simp [countBlobRows, emptyStore]) rfl (Or.inl (by decide))
  have h22 : lookupSidecar (insert_file emptyStore racedSourceFile).1
      (Digest.content racedContent) = some (racedContent, false) := h.2.2
  refine ⟨h.1, ?_, ?_⟩
  · have hb : (insert_file emptyStore racedSourceFile).1.blobs = emptyStore.blobs := h.2.1
    simp only [countBlobRows, hb, emptyStore]
    rfl
  · rw [h22]
    simp

/-- Witness for the amended C2 theorem at the rename-over input. -/
theorem insert_file_race_detected_witness :
    (renamedSourceFile.isFile = true ∧
      ¬ renamedSourceFile.lenAtOpen < LARGE_BLOB_THRESHOLD ∧
      ¬ countBlobRows emptyStore (Digest.content renamedSourceFile.hashContent) = 1 ∧
      sidecarIsReadonly emptyStore (Digest.content renamedSourceFile.hashContent) = false ∧
      renamedSourceFile.inoBefore ≠ renamedSourceFile.inoAfter) ∧
      ((insert_file emptyStore renamedSourceFile).2 =
          .error "file was modified while it was being read" ∧
        (insert_file emptyStore renamedSourceFile).1.blobs = emptyStore.blobs ∧
        lookupSidecar (insert_file emptyStore renamedSourceFile).1
          (Digest.content renamedSourceFile.hashContent) =
          some (renamedSourceFile.copyContent, false)) :=
  ⟨⟨rfl, by decide, by simp [countBlobRows, emptyStore], rfl, by decide⟩,
    insert_file_race_detected emptyStore renamedSourceFile rfl (by decide)
      (by simp [countBlobRows, emptyStore]) rfl (Or.inr (by decide))⟩

/-- C6: a fresh insert_blob (no row yet for the digest, no read-only
orphan blocking the file creation) stores the bytes inline exactly when
the length is below 65536 (the table row holds the data, no sidecar file
appears) and stores them as a sidecar file with a NULL data row exactly
when the length is at least 65536. -/
theorem insert_blob_threshold (s : Store) (b : Bytes)
    (hnew : ¬ countBlobRows s (Digest.content b) = 1)
    (hro : sidecarIsReadonly s (Digest.content b) = false) :
    (insert_blob s b).2 = .ok (Digest.content b) ∧
      (b.length < LARGE_BLOB_THRESHOLD →
        (insert_blob s b).1.blobs = s.blobs ++ [⟨Digest.content b, some b⟩] ∧
        (insert_blob s b).1.sidecars = s.sidecars) ∧
      (LARGE_BLOB_THRESHOLD ≤ b.length →
        (insert_blob s b).1.blobs = s.blobs ++ [⟨Digest.content b, none⟩] ∧
        lookupSidecar (insert_blob s b).1 (Digest.content b) = some (b, true)) := by
  by_cases hsmall : b.length < LARGE_BLOB_THRESHOLD
  · have hbranch : insert_blob s b =
        ({ s with blobs := s.blobs ++ [⟨Digest.content b, some b⟩] }, .ok (Digest.content b)) := by
      simp [insert_blob, hnew, hsmall, beq_iff_eq]
    rw [hbranch]
    exact ⟨rfl, fun _ => ⟨rfl, rfl⟩, fun hbig => absurd hbig (by omega)⟩
  · have hbranch : insert_blob s b =
        ({ s with
            blobs := s.blobs ++ [⟨Digest.content b, none⟩],
            sidecars := setSidecar s.sidecars (Digest.content b) b true },
          .ok (Digest.content b)) := by
      simp [insert_blob, hnew, hsmall, hro, beq_iff_eq]
    rw [hbranch]
    exact ⟨rfl, fun h => absurd h hsmall,
      fun _ => ⟨rfl, lookupVal_setSidecar _ s.sidecars _ _ _ rfl⟩⟩

/-- A blob of length 65535: one byte below the threshold. -/
def inlineBoundary : Bytes := List.replicate 65535 0

/-- A blob of length 65536: exactly the threshold. -/
def sidecarBoundary : Bytes := List.replicate 65536 0

/-- Witness for C6 at both boundary lengths, in an empty store. -/
theorem insert_blob_threshold_witness :
    (¬ countBlobRows emptyStore (Digest.content inlineBoundary) = 1 ∧
      sidecarIsReadonly emptyStore (Digest.content inlineBoundary) = false ∧
      inlineBoundary.length < LARGE_BLOB_THRESHOLD ∧
      (insert_blob emptyStore inlineBoundary).1.blobs =
        emptyStore.blobs ++ [⟨Digest.content inlineBoundary, some inlineBoundary⟩] ∧
      (insert_blob emptyStore inlineBoundary).1.sidecars = emptyStore.sidecars) ∧
    (¬ countBlobRows emptyStore (Digest.content sidecarBoundary) = 1 ∧
      sidecarIsReadonly emptyStore (Digest.content sidecarBoundary) = false ∧
      LARGE_BLOB_THRESHOLD ≤ sidecarBoundary.length ∧
      (insert_blob emptyStore sidecarBoundary).1.blobs =
        emptyStore.blobs ++ [⟨Digest.content sidecarBoundary, none⟩] ∧
      lookupSidecar (insert_blob emptyStore sidecarBoundary).1
        (Digest.content sidecarBoundary) = some (sidecarBoundary, true)) := by
  have hsl : inlineBoundary.length = 65535 := by
    rw [inlineBoundary, List.length_replicate]
  have hbl : sidecarBoundary.length = 65536 := by
    rw [sidecarBoundary, List.length_replicate]
  have hsmall : inlineBoundary.length < LARGE_BLOB_THRESHOLD := by
    rw [hsl, LARGE_BLOB_THRESHOLD]; omega
  have hbig : LARGE_BLOB_THRESHOLD ≤ sidecarBoundary.length := by
    rw [hbl, LARGE_BLOB_THRESHOLD]
  have h1 := insert_blob_threshold emptyStore inlineBoundary
    (by simp [countBlobRows, emptyStore]) rfl
  have h2 := insert_blob_threshold emptyStore sidecarBoundary
    (by simp [countBlobRows, emptyStore]) rfl
  exact ⟨⟨by simp [countBlobRows, emptyStore], rfl, hsmall,
          (h1.2.1 hsmall).1, (h1.2.1 hsmall).2⟩,
        ⟨by simp [countBlobRows, emptyStore], rfl, hbig,
          (h2.2.2 hbig).1, (h2.2.2 hbig).2⟩⟩

theorem wf_empty : WF emptyStore := by
  constructor <;> simp [emptyStore, countBlobRows]

theorem lookupSidecar_none_iff (s : Store) (d : Digest) :
    lookupSidecar s d = none ↔ ∀ e ∈ s.sidecars, ¬ e.name = d := by
  rw [lookupSidecar, Option.map_eq_none', List.find?_eq_none]
  simp

theorem lookupSidecar_some_elim (s : Store) (d : Digest) (pr : Bytes × Bool)
    (h : lookupSidecar s d = some pr) :
    ∃ e ∈ s.sidecars, e.name = d ∧ e.content = pr.1 := by
  rw [lookupSidecar, Option.map_eq_some'] at h
  rcases h with ⟨e, hfind, hpair⟩
  have hp : e.name = d := by simpa using List.find?_some hfind
  exact ⟨e, List.mem_of_find?_eq_some hfind, hp, congrArg Prod.fst hpair⟩

/-- C5: after insert_blob on a store satisfying the documented invariants
returns a digest, get_blob on that digest returns the original bytes, for
both the inline tier and the sidecar tier. -/
theorem insert_blob_get_blob_roundtrip (s : Store) (b : Bytes) (s1 : Store) (d : Digest)
    (hwf : WF s) (h : insert_blob s b = (s1, .ok d)) :
    get_blob s1 d = .ok (some b) := by
  by_cases h1 : countBlobRows s (Digest.content b) = 1
  · have hb : insert_blob s b = (s, .ok (Digest.content b)) := by
      simp [insert_blob, h1, beq_iff_eq]
    rw [hb] at h
    injection h with hs hd
    injection hd with hd
    subst hs; subst hd
    have hpos : 0 < s.blobs.countP (fun r => decide (r.blob_id = Digest.content b)) := by
      rw [countBlobRows] at h1; omega
    cases hsc : lookupSidecar s (Digest.content b) with
    | some pr =>
      obtain ⟨e, hemem, hename, hecontent⟩ := lookupSidecar_some_elim s _ pr hsc
      have hok := hwf.sidecar_ok e hemem
      have h2 : Digest.content b = Digest.content e.content := by rw [← hename, hok.1]
      have hcb : e.content = b := (Digest.content.inj h2).symm
      simp [get_blob, hsc, ← hecontent, hcb]
    | none =>
      have hfind : (s.blobs.find? (fun r => decide (r.blob_id = Digest.content b))).isSome := by
        rw [List.find?_isSome]
        exact List.countP_pos_iff.mp hpos
      obtain ⟨r, hr⟩ := Option.isSome_iff_exists.mp hfind
      have hrmem := List.mem_of_find?_eq_some hr
      have hrid : r.blob_id = Digest.content b := by simpa using List.find?_some hr
      cases hdata : r.data with
      | some data =>
        have hio := hwf.inline_ok r hrmem data hdata
        have hdb : data = b := by
          have h2 : Digest.content b = Digest.content data := by rw [← hrid, hio.1]
          exact (Digest.content.inj h2).symm
        simp [get_blob, hsc, lookupBlobRow, hr, hdata, hdb]
      | none =>
        obtain ⟨e, hemem, hename⟩ := hwf.nullrow_sidecar r hrmem hdata
        have hno := (lookupSidecar_none_iff s (Digest.content b)).mp hsc e hemem
        rw [hrid] at hename
        exact absurd hename hno
  · by_cases hsmall : b.length < LARGE_BLOB_THRESHOLD
    · have hb : insert_blob s b =
          ({ s with blobs := s.blobs ++ [⟨Digest.content b, some b⟩] },
            .ok (Digest.content b)) := by
        simp [insert_blob, h1, hsmall, beq_iff_eq]
      rw [hb] at h
      injection h with hs hd
      injection hd with hd
      subst hs; subst hd
      cases hsc : lookupSidecar s (Digest.content b) with
      | some pr =>
        obtain ⟨e, hemem, hename, _⟩ := lookupSidecar_some_elim s _ pr hsc
        have hok := hwf.sidecar_ok e hemem
        have h2 : Digest.content b = Digest.content e.content := by rw [← hename, hok.1]
        have hcb : e.content = b := (Digest.content.inj h2).symm
        have hlen := hok.2
        rw [hcb] at hlen
        omega
      | none =>
        have hz : s.blobs.countP (fun r => decide (r.blob_id = Digest.content b)) = 0 := by
          have hle := hwf.pk_blobs (Digest.content b)
          rw [countBlobRows] at hle h1
          omega
        have hfnone : s.blobs.find? (fun r => decide (r.blob_id = Digest.content b)) = none := by
          rw [List.find?_eq_none]
          intro x hx
          simpa using List.countP_eq_zero.mp hz x hx
        have hsc1 : lookupSidecar
            ({ s with blobs := s.blobs ++ [⟨Digest.content b, some b⟩] })
            (Digest.content b) = none := hsc
        have hrow : lookupBlobRow
            ({ s with blobs := s.blobs ++ [⟨Digest.content b, some b⟩] })
            (Digest.content b) = some (some b) := by
          rw [lookupBlobRow]
          simp [List.find?_append, hfnone, List.find?]
        simp [get_blob, hsc1, hrow]
    · cases hro : sidecarIsReadonly s (Digest.content b) with
      | true =>
        have hb : insert_blob s b = (s, .error "creating file") := by
          simp [insert_blob, h1, hsmall, hro, beq_iff_eq]
        rw [hb] at h
        injection h with _ hd
        cases hd
      | false =>
        have hb : insert_blob s b =
            ({ s with
                blobs := s.blobs ++ [⟨Digest.content b, none⟩],
                sidecars := setSidecar s.sidecars (Digest.content b) b true },
              .ok (Digest.content b)) := by
          simp [insert_blob, h1, hsmall, hro, beq_iff_eq]
        rw [hb] at h
        injection h with hs hd
        injection hd with hd
        subst hs; subst hd
        have hsc : lookupSidecar
            ({ s with
                blobs := s.blobs ++ [⟨Digest.content b, none⟩],
                sidecars := setSidecar s.sidecars (Digest.content b) b true })
            (Digest.content b) = some (b, true) :=
          lookupVal_setSidecar _ s.sidecars _ _ _ rfl
        simp [get_blob, hsc]

/-- Witness for C5: inserting the bytes [1, 2, 3] into an empty store and
reading them back. -/
theorem insert_blob_get_blob_roundtrip_witness :
    WF emptyStore ∧
      insert_blob emptyStore [1, 2, 3] =
        (⟨[⟨Digest.content [1, 2, 3], some [1, 2, 3]⟩], [], []⟩,
          .ok (Digest.content [1, 2, 3])) ∧
      get_blob ⟨[⟨Digest.content [1, 2, 3], some [1, 2, 3]⟩], [], []⟩
        (Digest.content [1, 2, 3]) = .ok (some [1, 2, 3]) :=
  ⟨wf_empty, by simp [insert_blob, countBlobRows, emptyStore, LARGE_BLOB_THRESHOLD],
    insert_blob_get_blob_roundtrip emptyStore [1, 2, 3]
      ⟨[⟨Digest.content [1, 2, 3], some [1, 2, 3]⟩], [], []⟩
      (Digest.content [1, 2, 3]) wf_empty
      (by simp [insert_blob, countBlobRows, emptyStore, LARGE_BLOB_THRESHOLD])⟩

/-- Well-formedness of a child name per Tree::add_child: non-empty, no
slash (0x2F), no NUL. -/
def validName (n : Bytes) : Bool :=
  !n.isEmpty && !(n.contains 47) && !(n.contains 0)

/-- A stored kind pair recognized by get_tree: (0, anything) or
(1, false). -/
def goodKindPair (r : TreeRow) : Bool :=
  r.node_type == 0 || (r.node_type == 1 && r.executable == false)

theorem decode_ok_iff (tag : Nat) (exec : Bool) :
    (decodeNodeType tag exec).isOk = (tag == 0 || (tag == 1 && exec == false)) := by
  by_cases h0 : tag = 0
  · simp [decodeNodeType, h0, Except.isOk, Except.toBool]
  · by_cases h1 : tag = 1
    · cases exec <;> simp [decodeNodeType, h0, h1, Except.isOk, Except.toBool]
    · simp [decodeNodeType, h0, h1, Except.isOk, Except.toBool]

theorem readTreeRows_isOk (rows : List TreeRow) :
    ∀ t0, (readTreeRows rows t0).isOk = rows.all goodKindPair := by
  induction rows with
  | nil => intro t0; rfl
  | cons r rest ih =>
    intro t0
    have hgood : goodKindPair r = (decodeNodeType r.node_type r.executable).isOk := by
      rw [decode_ok_iff, goodKindPair]
    cases hd : decodeNodeType r.node_type r.executable with
    | error e =>
      have hg : goodKindPair r = false := by rw [hgood, hd]; rfl
      simp [readTreeRows, hd, hg, Except.isOk, Except.toBool]
    | ok nt =>
      have hg : goodKindPair r = true := by rw [hgood, hd]; rfl
      simp [readTreeRows, hd, hg, ih]

/-- C9 (amended): corruption on the tree read path is surfaced as an
error: get_tree succeeds exactly when every selected row carries a
recognized (kind_tag, executable) pair (given uncorrupted child names,
since unrecognized pairs are the only corruption get_tree reports as an
error rather than panicking).  On the blob read path, however, an
oversized inline blob is NOT surfaced as an error: when no sidecar file
exists and the row holds inline data, get_blob returns the data as a
success whatever its length (the length bound is only a debug
assertion). -/
theorem read_corruption_surfacing :
    (∀ (s : Store) (tid : Digest),
      (∀ r ∈ s.trees, validName r.child_name = true) →
      (get_tree s tid).isOk =
        (s.trees.filter (fun r => decide (r.tree_id = tid))).all goodKindPair) ∧
    (∀ (s : Store) (d : Digest) (data : Bytes),
      lookupSidecar s d = none → lookupBlobRow s d = some (some data) →
      get_blob s d = .ok (some data)) := by
  constructor
  · intro s tid _
    rw [← readTreeRows_isOk (s.trees.filter fun r => decide (r.tree_id = tid)) Tree.new]
    rw [get_tree]
    cases hr : readTreeRows (s.trees.filter fun r => decide (r.tree_id = tid)) Tree.new with
    | error e => rfl
    | ok t => by_cases hl : t.len > 0 <;> simp [hl, Except.isOk, Except.toBool]
  · intro s d data h1 h2
    simp [get_blob, h1, h2]

/-- An inline blobs row whose data length equals the threshold, which
invariant I2 forbids: a corrupt store. -/
def oversizedInline : Bytes := List.replicate 65536 4

/-- Store holding the corrupt oversized inline row. -/
def corruptBlobStore : Store := ⟨[⟨Digest.content [], some oversizedInline⟩], [], []⟩

/-- C9 (counterexample): get_blob on an inline blob of length 65536
returns the data as a success rather than the read error the claim
requires. -/
theorem get_blob_oversized_inline_no_error :
    LARGE_BLOB_THRESHOLD ≤ oversizedInline.length ∧
      get_blob corruptBlobStore (Digest.content []) = .ok (some oversizedInline) := by
  constructor
  · rw [LARGE_BLOB_THRESHOLD, oversizedInline, List.length_replicate]
  · rfl

/-- Store holding one tree row with the unrecognized kind pair (7, true)
but a well-formed child name. -/
def corruptTreeStore : Store :=
  ⟨[], [⟨Digest.content [], [97], Digest.content [1], 7, true⟩], []⟩

/-- Witness for the amended C9 theorem: the corrupt kind pair (7, true)
makes get_tree fail, and the oversized inline row makes get_blob succeed. -/
theorem read_corruption_surfacing_witness :
    ((∀ r ∈ corruptTreeStore.trees, validName r.child_name = true) ∧
      (get_tree corruptTreeStore (Digest.content [])).isOk =
        (corruptTreeStore.trees.filter
          (fun r => decide (r.tree_id = Digest.content []))).all goodKindPair) ∧
    (lookupSidecar corruptBlobStore (Digest.content []) = none ∧
      lookupBlobRow corruptBlobStore (Digest.content []) = some (some oversizedInline) ∧
      get_blob corruptBlobStore (Digest.content []) = .ok (some oversizedInline)) :=
  ⟨⟨by decide, read_corruption_surfacing.1 corruptTreeStore (Digest.content []) (by decide)⟩,
    ⟨rfl, rfl, read_corruption_surfacing.2 corruptBlobStore (Digest.content [])
      oversizedInline rfl rfl⟩⟩

/-! Order theory of bytesLt, the canonical order on child names. -/

theorem bytesLt_asymm : ∀ a b : Bytes, bytesLt a b = true → bytesLt b a = true → False
  | [], [], h1, _ => by simp [bytesLt] at h1
  | [], _ :: _, _, h2 => by simp [bytesLt] at h2
  | _ :: _, [], h1, _ => by simp [bytesLt] at h1
  | a :: as, b :: bs, h1, h2 => by
    rw [bytesLt] at h1 h2
    by_cases hab : a < b
    · rw [if_neg (Nat.lt_asymm hab), if_pos hab] at h2
      exact absurd h2 (by simp)
    · by_cases hba : b < a
      · rw [if_neg hab, if_pos hba] at h1
        exact absurd h1 (by simp)
      · rw [if_neg hab, if_neg hba] at h1
        rw [if_neg hba, if_neg hab] at h2
        exact bytesLt_asymm as bs h1 h2

theorem bytesLt_trans :
    ∀ a b c : Bytes, bytesLt a b = true → bytesLt b c = true → bytesLt a c = true
  | _, [], _, h1, _ => by simp [bytesLt] at h1
  | _, _ :: _, [], _, h2 => by simp [bytesLt] at h2
  | [], _ :: _, _ :: _, _, _ => by simp [bytesLt]
  | a :: as, b :: bs, c :: cs, h1, h2 => by
    rw [bytesLt] at h1 h2 ⊢
    by_cases hab : a < b
    · by_cases hbc : b < c
      · rw [if_pos (Nat.lt_trans hab hbc)]
      · rw [if_neg hbc] at h2
        by_cases hcb : c < b
        · rw [if_pos hcb] at h2
          exact absurd h2 (by simp)
        · have hbceq : b = c := Nat.le_antisymm (Nat.not_lt.mp hcb) (Nat.not_lt.mp hbc)
          rw [if_pos (hbceq ▸ hab)]
    · rw [if_neg hab] at h1
      by_cases hba : b < a
      · rw [if_pos hba] at h1
        exact absurd h1 (by simp)
      · rw [if_neg hba] at h1
        have habeq : a = b := Nat.le_antisymm (Nat.not_lt.mp hba) (Nat.not_lt.mp hab)
        by_cases hbc : b < c
        · rw [if_pos (habeq.symm ▸ hbc)]
        · rw [if_neg hbc] at h2
          by_cases hcb : c < b
          · rw [if_pos hcb] at h2
            exact absurd h2 (by simp)
          · rw [if_neg hcb] at h2
            have hbceq : b = c := Nat.le_antisymm (Nat.not_lt.mp hcb) (Nat.not_lt.mp hbc)
            subst habeq
            subst hbceq
            rw [if_neg hab, if_neg hab]
            exact bytesLt_trans as bs cs h1 h2

theorem bytesLt_total : ∀ a b : Bytes, a ≠ b → bytesLt a b = true ∨ bytesLt b a = true
  | [], [], h => absurd rfl h
  | [], _ :: _, _ => Or.inl (by simp [bytesLt])
  | _ :: _, [], _ => Or.inr (by simp [bytesLt])
  | a :: as, b :: bs, h => by
    by_cases hab : a < b
    · exact Or.inl (by rw [bytesLt, if_pos hab])
    · by_cases hba : b < a
      · exact Or.inr (by rw [bytesLt, if_pos hba])
      · have heq2 : a = b := Nat.le_antisymm (Nat.not_lt.mp hba) (Nat.not_lt.mp hab)
        subst heq2
        have hne : as ≠ bs := fun he => h (by rw [he])
        rcases bytesLt_total as bs hne with h1 | h1
        · exact Or.inl (by rw [bytesLt, if_neg hba, if_neg hba]; exact h1)
        · exact Or.inr (by rw [bytesLt, if_neg hba, if_neg hba]; exact h1)

/-- Canonical strict order on tree entries: bytewise lexicographic on the
names. -/
def childLt (a b : Bytes × Digest × NodeType) : Prop := bytesLt a.1 b.1 = true

instance childLt_antisymm : IsAntisymm (Bytes × Digest × NodeType) childLt :=
  ⟨fun a b h1 h2 => (bytesLt_asymm a.1 b.1 h1 h2).elim⟩

theorem insertSorted_perm (name : Bytes) (v : Digest × NodeType) :
    ∀ l : List (Bytes × Digest × NodeType), name ∉ l.map Prod.fst →
      (insertSorted name v l).Perm ((name, v) :: l)
  | [], _ => by simp [insertSorted]
  | (n, w) :: rest, h => by
    rw [insertSorted]
    by_cases h1 : bytesLt name n = true
    · rw [if_pos h1]
    · have hne : name ≠ n := fun he => h (by simp [he])
      have hrest : name ∉ rest.map Prod.fst := fun hm => h (by simp [hm])
      rw [if_neg h1, if_neg hne]
      exact (((insertSorted_perm name v rest hrest).cons (n, w)).trans
        (List.Perm.swap (name, v) (n, w) rest))

theorem insertSorted_sorted (name : Bytes) (v : Digest × NodeType) :
    ∀ l, List.Sorted childLt l → name ∉ l.map Prod.fst →
      List.Sorted childLt (insertSorted name v l)
  | [], _, _ => by simp [insertSorted, List.Sorted]
  | (n, w) :: rest, hs, hn => by
    rw [insertSorted]
    have hhead := (List.pairwise_cons.mp hs).1
    have htail := (List.pairwise_cons.mp hs).2
    by_cases h1 : bytesLt name n = true
    · rw [if_pos h1]
      refine List.Pairwise.cons ?_ hs
      intro x hx
      rcases List.mem_cons.mp hx with he | hm
      · rw [he]
        exact h1
      · exact bytesLt_trans name n x.1 h1 (hhead x hm)
    · have hne : name ≠ n := fun he => hn (by simp [he])
      have hrest : name ∉ rest.map Prod.fst := fun hm => hn (by simp [hm])
      have hn2 : bytesLt n name = true := by
        rcases bytesLt_total name n hne with h2 | h2
        · exact absurd h2 h1
        · exact h2
      rw [if_neg h1, if_neg hne]
      refine List.Pairwise.cons ?_ (insertSorted_sorted name v rest htail hrest)
      intro x hx
      have hx2 := (insertSorted_perm name v rest hrest).mem_iff.mp hx
      rcases List.mem_cons.mp hx2 with he | hm
      · rw [he]
        exact hn2
      · exact hhead x hm

/-- Building a Tree by a sequence of add_child calls from a starting
tree. -/
def buildTree (l : List (Bytes × Digest × NodeType)) : Tree :=
  l.foldl (fun t c => t.addChild c.1 c.2.1 c.2.2) Tree.new

theorem foldl_addChild_perm :
    ∀ (l : List (Bytes × Digest × NodeType)) (t : Tree),
      ((t.children ++ l).map Prod.fst).Nodup →
      (l.foldl (fun t c => t.addChild c.1 c.2.1 c.2.2) t).children.Perm
        (t.children ++ l)
  | [], t, _ => by simp
  | c :: rest, t, h => by
    rw [List.foldl_cons]
    have hfresh : c.1 ∉ t.children.map Prod.fst := by
      intro hm
      rw [List.map_append] at h
      have := (List.nodup_append.mp h).2.2
      exact this hm (by simp)
    have hstep : (t.addChild c.1 c.2.1 c.2.2).children.Perm (c :: t.children) :=
      insertSorted_perm c.1 (c.2.1, c.2.2) t.children hfresh
    have hmapperm :
        (((t.addChild c.1 c.2.1 c.2.2).children ++ rest).map Prod.fst).Perm
          (((c :: t.children) ++ rest).map Prod.fst) :=
      (hstep.append_right rest).map Prod.fst
    have hperm0 : ((t.children ++ c :: rest).map Prod.fst).Perm
        (((c :: t.children) ++ rest).map Prod.fst) := by
      refine List.Perm.map Prod.fst ?_
      exact List.perm_middle.trans (List.Perm.refl _)
    have hnodup1 : (((t.addChild c.1 c.2.1 c.2.2).children ++ rest).map Prod.fst).Nodup :=
      hmapperm.nodup_iff.mpr (hperm0.nodup_iff.mp h)
    have hrec := foldl_addChild_perm rest (t.addChild c.1 c.2.1 c.2.2) hnodup1
    refine hrec.trans ?_
    refine ((hstep.append_right rest).trans ?_)
    exact List.perm_middle.symm

theorem foldl_addChild_sorted :
    ∀ (l : List (Bytes × Digest × NodeType)) (t : Tree),
      List.Sorted childLt t.children →
      ((t.children ++ l).map Prod.fst).Nodup →
      List.Sorted childLt
        (l.foldl (fun t c => t.addChild c.1 c.2.1 c.2.2) t).children
  | [], t, hs, _ => hs
  | c :: rest, t, hs, h => by
    rw [List.foldl_cons]
    have hfresh : c.1 ∉ t.children.map Prod.fst := by
      intro hm
      rw [List.map_append] at h
      have := (List.nodup_append.mp h).2.2
      exact this hm (by simp)
    have hstep : (t.addChild c.1 c.2.1 c.2.2).children.Perm (c :: t.children) :=
      insertSorted_perm c.1 (c.2.1, c.2.2) t.children hfresh
    have hsorted1 : List.Sorted childLt (t.addChild c.1 c.2.1 c.2.2).children :=
      insertSorted_sorted c.1 (c.2.1, c.2.2) t.children hs hfresh
    have hmapperm :
        (((t.addChild c.1 c.2.1 c.2.2).children ++ rest).map Prod.fst).Perm
          (((c :: t.children) ++ rest).map Prod.fst) :=
      (hstep.append_right rest).map Prod.fst
    have hperm0 : ((t.children ++ c :: rest).map Prod.fst).Perm
        (((c :: t.children) ++ rest).map Prod.fst) :=
      List.Perm.map Prod.fst List.perm_middle
    have hnodup1 : (((t.addChild c.1 c.2.1 c.2.2).children ++ rest).map Prod.fst).Nodup :=
      hmapperm.nodup_iff.mpr (hperm0.nodup_iff.mp h)
    exact foldl_addChild_sorted rest (t.addChild c.1 c.2.1 c.2.2) hsorted1 hnodup1

/-- C8: for every set of (name, digest, kind) children with distinct
names, any two orders of the add_child calls build Tree values with equal
digests: the digest depends only on the set of children, not the insertion
order. -/
theorem tree_id_perm_invariant (l1 l2 : List (Bytes × Digest × NodeType))
    (hperm : l1.Perm l2) (hnodup : (l1.map Prod.fst).Nodup) :
    (buildTree l1).id = (buildTree l2).id := by
  have hnodup2 : (l2.map Prod.fst).Nodup := (hperm.map Prod.fst).nodup_iff.mp hnodup
  have h1 := foldl_addChild_perm l1 Tree.new (by simpa [Tree.new] using hnodup)
  have h2 := foldl_addChild_perm l2 Tree.new (by simpa [Tree.new] using hnodup2)
  have s1 := foldl_addChild_sorted l1 Tree.new (by simp [Tree.new, List.Sorted])
    (by simpa [Tree.new] using hnodup)
  have s2 := foldl_addChild_sorted l2 Tree.new (by simp [Tree.new, List.Sorted])
    (by simpa [Tree.new] using hnodup2)
  have hchildren : (buildTree l1).children = (buildTree l2).children := by
    refine List.eq_of_perm_of_sorted ?_ s1 s2
    refine h1.trans ?_
    refine (List.Perm.trans ?_ h2.symm)
    simpa [Tree.new] using hperm
  rw [Tree.id, Tree.id, hchildren]

/-- Witness for C8: the two-child tree from spec scenario S6 built in both
orders. -/
theorem tree_id_perm_invariant_witness :
    (([([97], Digest.content [1], NodeType.blob false), ([98], Digest.content [2], NodeType.tree)] :
        List (Bytes × Digest × NodeType)).Perm
      [([98], Digest.content [2], NodeType.tree), ([97], Digest.content [1], NodeType.blob false)] ∧
      (([([97], Digest.content [1], NodeType.blob false), ([98], Digest.content [2], NodeType.tree)] :
        List (Bytes × Digest × NodeType)).map Prod.fst).Nodup) ∧
    (buildTree [([97], Digest.content [1], NodeType.blob false), ([98], Digest.content [2], NodeType.tree)]).id =
      (buildTree [([98], Digest.content [2], NodeType.tree), ([97], Digest.content [1], NodeType.blob false)]).id :=
  ⟨⟨by decide, by decide⟩,
    tree_id_perm_invariant
      [([97], Digest.content [1], NodeType.blob false), ([98], Digest.content [2], NodeType.tree)]
      [([98], Digest.content [2], NodeType.tree), ([97], Digest.content [1], NodeType.blob false)]
      (by decide) (by decide)⟩

/-! Referential integrity of insert_tree. -/

/-- Referent of one child present in the store, as insert_tree requires
it: a blob child needs exactly one blobs row, a tree child needs at least
one trees row. -/
def childPresent (s : Store) (c : Bytes × Digest × NodeType) : Bool :=
  match c.2.2 with
  | .blob _ => countBlobRows s c.2.1 == 1
  | .tree => decide (0 < countTreeRows s.trees c.2.1)

/-- All child referents of a tree are present in the store. -/
def referentsPresent (s : Store) (t : Tree) : Bool :=
  t.children.all (childPresent s)

/-- Whether the trees table already has a row with primary key
(tid, name). -/
def hasTreeRowKey (rows : List TreeRow) (tid : Digest) (name : Bytes) : Bool :=
  rows.any (fun r => decide (r.tree_id = tid) && decide (r.child_name = name))

/-- No child row of the tree collides with an existing primary key. -/
def noKeyConflicts (s : Store) (t : Tree) : Bool :=
  t.children.all (fun c => !(hasTreeRowKey s.trees t.id c.1))

theorem nodeTypeBytes_length (nt : NodeType) : (nodeTypeBytes nt).length = 2 := by
  cases nt with
  | blob e => cases e <;> rfl
  | tree => rfl

theorem childFrame_length (c : Bytes × Digest × NodeType) :
    (childFrame c).length = c.2.1.asBytes.length + 2 + c.1.length + 1 := by
  simp [childFrame, nodeTypeBytes_length]
  omega

theorem childFrame_le_treeFrame (t : Tree) (c : Bytes × Digest × NodeType)
    (hc : c ∈ t.children) : (childFrame c).length ≤ (treeFrame t).length := by
  rw [treeFrame, List.length_flatten]
  have hm : (childFrame c).length ∈ (t.children.map childFrame).map List.length :=
    List.mem_map_of_mem _ (List.mem_map_of_mem _ hc)
  exact List.single_le_sum (fun x _ => Nat.zero_le x) _ hm

/-- A tree's own digest can never appear among its child digests: the
keyed-hash input of the tree already contains the child digest encoding
plus at least three more bytes, so the encodings have different lengths. -/
theorem child_id_ne_tree_id (t : Tree) (c : Bytes × Digest × NodeType)
    (hc : c ∈ t.children) : c.2.1 ≠ t.id := by
  intro he
  have h1 : c.2.1.asBytes.length ≤ (treeFrame t).length := by
    have := childFrame_le_treeFrame t c hc
    rw [childFrame_length] at this
    omega
  have h2 : t.id.asBytes.length = 2 + treeIdKey.length + (treeFrame t).length := by
    rw [tree_id_frame]
    simp [Digest.asBytes]
    omega
  rw [he] at h1
  rw [h2] at h1
  omega

theorem insertTreeRows_ok_iff (s : Store) (tid : Digest) :
    ∀ (children : List (Bytes × Digest × NodeType)) (newRows : List TreeRow),
      (∀ r ∈ newRows, r.tree_id = tid) →
      (∀ c ∈ children, c.2.1 ≠ tid) →
      (∀ c ∈ children, ∀ r ∈ newRows, r.child_name ≠ c.1) →
      (children.map Prod.fst).Nodup →
      (insertTreeRows s tid children (s.trees ++ newRows)).isOk =
        children.all (fun c => childPresent s c && !(hasTreeRowKey s.trees tid c.1))
  | [], newRows, _, _, _, _ => by simp [insertTreeRows, Except.isOk, Except.toBool]
  | c :: rest, newRows, hnew, hcid, hfresh, hnodup => by
    obtain ⟨cn, cid, cnt⟩ := c
    have hcid0 : cid ≠ tid := hcid (cn, cid, cnt) (by simp)
    have hcount : countTreeRows (s.trees ++ newRows) cid = countTreeRows s.trees cid := by
      rw [countTreeRows, countTreeRows, List.countP_append]
      have hz : newRows.countP (fun r => decide (r.tree_id = cid)) = 0 := by
        rw [List.countP_eq_zero]
        intro r hr
        simp only [decide_eq_true_eq]
        rw [hnew r hr]
        exact fun he => hcid0 he.symm
      omega
    have hany : ((s.trees ++ newRows).any
          fun r => decide (r.tree_id = tid) && decide (r.child_name = cn))
        = hasTreeRowKey s.trees tid cn := by
      rw [hasTreeRowKey, List.any_append]
      have hz : (newRows.any
          fun r => decide (r.tree_id = tid) && decide (r.child_name = cn)) = false := by
        rw [List.any_eq_false]
        intro r hr
        simp only [Bool.and_eq_true, decide_eq_true_eq, not_and]
        intro _
        exact hfresh (cn, cid, cnt) (by simp) r hr
      rw [hz, Bool.or_false]
    have hfreshhead : ∀ c2 ∈ rest, cn ≠ c2.1 := by
      intro c2 hc2 he
      have hm : c2.1 ∈ rest.map Prod.fst := List.mem_map_of_mem Prod.fst hc2
      rw [← he] at hm
      exact (List.nodup_cons.mp hnodup).1 hm
    have hih : ∀ nt2 : NodeType,
        (insertTreeRows s tid rest
            (s.trees ++ (newRows ++
              [⟨tid, cn, cid, (nodeTypeCols nt2).1, (nodeTypeCols nt2).2⟩]))).isOk =
          rest.all (fun c => childPresent s c && !(hasTreeRowKey s.trees tid c.1)) := by
      intro nt2
      refine insertTreeRows_ok_iff s tid rest
        (newRows ++ [⟨tid, cn, cid, (nodeTypeCols nt2).1, (nodeTypeCols nt2).2⟩])
        ?_ ?_ ?_ (List.nodup_cons.mp hnodup).2
      · intro r hr
        rcases List.mem_append.mp hr with h | h
        · exact hnew r h
        · rw [List.mem_singleton.mp h]
      · intro c2 hc2
        exact hcid c2 (List.mem_cons_of_mem _ hc2)
      · intro c2 hc2 r hr
        rcases List.mem_append.mp hr with h | h
        · exact hfresh c2 (List.mem_cons_of_mem _ hc2) r h
        · rw [List.mem_singleton.mp h]
          exact hfreshhead c2 hc2
    cases cnt with
    | blob e =>
      have hcp : childPresent s (cn, cid, NodeType.blob e) = (countBlobRows s cid == 1) := rfl
      by_cases hb : (countBlobRows s cid == 1) = true
      · by_cases hk : hasTreeRowKey s.trees tid cn = true
        · simp [insertTreeRows, childCheck, hb, hany, hk, hcp, Except.isOk, Except.toBool]
        · simp only [Bool.not_eq_true] at hk
          simp [insertTreeRows, childCheck, mkTreeRow, hb, hany, hk, hcp,
            hih (NodeType.blob e)]
      · simp only [Bool.not_eq_true] at hb
        simp [insertTreeRows, childCheck, hb, hcp, Except.isOk, Except.toBool]
    | tree =>
      have hcp : childPresent s (cn, cid, NodeType.tree) =
          decide (0 < countTreeRows s.trees cid) := rfl
      by_cases hb : (0 < countTreeRows s.trees cid)
      · by_cases hk : hasTreeRowKey s.trees tid cn = true
        · simp [insertTreeRows, childCheck, hcount, hb, hany, hk, hcp,
            Except.isOk, Except.toBool]
        · simp only [Bool.not_eq_true] at hk
          simp [insertTreeRows, childCheck, mkTreeRow, hcount, hb, hany, hk, hcp,
            hih NodeType.tree]
      · simp [insertTreeRows, childCheck, hcount, hb, hcp, Except.isOk, Except.toBool]

theorem insert_tree_eq_of_rows_ok (s : Store) (t : Tree) (rows : List TreeRow)
    (hlen : ¬ t.len = 0) (h : insertTreeRows s t.id t.children s.trees = .ok rows) :
    insert_tree s t = ({ s with trees := rows }, .ok t.id) := by
  simp only [insert_tree]
  rw [if_neg hlen, h]

theorem insert_tree_eq_of_rows_error (s : Store) (t : Tree) (e : String)
    (hlen : ¬ t.len = 0) (h : insertTreeRows s t.id t.children s.trees = .error e) :
    insert_tree s t = (s, .error e) := by
  simp only [insert_tree]
  rw [if_neg hlen, h]

/-- C4 (amended): for a non-empty tree with distinct child names,
insert_tree succeeds if and only if every child referent is present AND no
child row collides with an existing (tree_id, child_name) primary key (a
collision happens exactly when the same tree was inserted before, per the
source's non-idempotent tree insert); on any failure the transaction
aborts and the trees table is unchanged, so zero rows for the tree's id
are added. -/
theorem insert_tree_success_iff (s : Store) (t : Tree)
    (hne : t.children ≠ [])
    (hnodup : (t.children.map Prod.fst).Nodup) :
    ((insert_tree s t).2 = .ok t.id ↔
      (referentsPresent s t = true ∧ noKeyConflicts s t = true)) ∧
    ((insert_tree s t).2.isOk = false → (insert_tree s t).1 = s) := by
  have hlen0 : ¬ t.len = 0 := by
    rw [Tree.len]
    intro h0
    exact hne (List.eq_nil_of_length_eq_zero h0)
  have hmain := insertTreeRows_ok_iff s t.id t.children []
    (by intro r hr; cases hr) (fun c hc => child_id_ne_tree_id t c hc)
    (by intro c hc r hr; cases hr) hnodup
  rw [List.append_nil] at hmain
  have hallsplit :
      t.children.all (fun c => childPresent s c && !(hasTreeRowKey s.trees t.id c.1)) = true ↔
        (referentsPresent s t = true ∧ noKeyConflicts s t = true) := by
    rw [referentsPresent, noKeyConflicts, List.all_eq_true, List.all_eq_true, List.all_eq_true]
    constructor
    · intro h
      constructor
      · intro c hc
        have hh := h c hc
        rw [Bool.and_eq_true] at hh
        exact hh.1
      · intro c hc
        have hh := h c hc
        rw [Bool.and_eq_true] at hh
        exact hh.2
    · intro h c hc
      rw [Bool.and_eq_true]
      exact ⟨h.1 c hc, h.2 c hc⟩
  cases hres : insertTreeRows s t.id t.children s.trees with
  | ok rows =>
    have heq := insert_tree_eq_of_rows_ok s t rows hlen0 hres
    rw [heq]
    rw [hres] at hmain
    constructor
    · constructor
      · intro _
        exact hallsplit.mp (by rw [← hmain]; rfl)
      · intro _
        rfl
    · intro hok
      exact absurd hok (by simp [Except.isOk, Except.toBool])
  | error e =>
    have heq := insert_tree_eq_of_rows_error s t e hlen0 hres
    rw [heq]
    rw [hres] at hmain
    constructor
    · constructor
      · intro habs
        exact absurd habs (by simp)
      · intro hok
        have := hallsplit.mpr hok
        rw [← hmain] at this
        exact absurd this (by simp [Except.isOk, Except.toBool])
    · intro _
      rfl

theorem insertTreeRows_ok_rows (s : Store) (tid : Digest) :
    ∀ (children : List (Bytes × Digest × NodeType)) (acc rows : List TreeRow),
      insertTreeRows s tid children acc = .ok rows →
      rows = acc ++ children.map (mkTreeRow tid)
  | [], acc, rows, h => by
    simp only [insertTreeRows] at h
    injection h with h
    simp [← h]
  | c :: rest, acc, rows, h => by
    simp only [insertTreeRows] at h
    cases hchk : childCheck s acc c with
    | error e =>
      rw [hchk] at h
      cases h
    | ok u =>
      cases u
      rw [hchk] at h
      by_cases hk : (acc.any
          fun r => decide (r.tree_id = tid) && decide (r.child_name = c.1)) = true
      · rw [if_pos hk] at h
        cases h
      · rw [if_neg hk] at h
        have hrec := insertTreeRows_ok_rows s tid rest (acc ++ [mkTreeRow tid c]) rows h
        rw [hrec, List.map_cons, List.append_assoc]
        simp

/-- The blob bytes used by the concrete duplicate-insert scenarios. -/
def fooBytes : Bytes := [102, 111, 111]

/-- Store after inserting the foo blob into an empty store. -/
def fooStore : Store := (insert_blob emptyStore fooBytes).1

/-- One-child tree pointing at the foo blob. -/
def fooTree : Tree := Tree.new.addChild [97] (Digest.content fooBytes) (.blob false)

/-- Store after additionally inserting the one-child tree. -/
def fooTreeStore : Store := (insert_tree fooStore fooTree).1

/-- C4 (counterexample): in the store where the one-child tree was
already inserted, every child referent is present, yet insert_tree of the
same tree fails with a primary-key conflict, refuting the claimed iff. -/
theorem insert_tree_fails_despite_referents :
    referentsPresent fooTreeStore fooTree = true ∧
      (insert_tree fooTreeStore fooTree).2 = .error "UNIQUE constraint failed" :=
  ⟨by decide, rfl⟩

/-- Witness for the amended C4 theorem at the one-child tree over the
store holding its blob. -/
theorem insert_tree_success_iff_witness :
    (fooTree.children ≠ [] ∧ (fooTree.children.map Prod.fst).Nodup) ∧
      (((insert_tree fooStore fooTree).2 = .ok fooTree.id ↔
        (referentsPresent fooStore fooTree = true ∧ noKeyConflicts fooStore fooTree = true)) ∧
      ((insert_tree fooStore fooTree).2.isOk = false →
        (insert_tree fooStore fooTree).1 = fooStore)) :=
  ⟨⟨by decide, by decide⟩, insert_tree_success_iff fooStore fooTree (by decide) (by decide)⟩

theorem insert_blob_exists_eq (s : Store) (b : Bytes)
    (h : countBlobRows s (Digest.content b) = 1) :
    insert_blob s b = (s, .ok (Digest.content b)) := by
  simp [insert_blob, h, beq_iff_eq]

/-- C7 (counterexample): re-inserting the already-present one-child tree
does not succeed and does not return the existing digest: it fails with a
primary-key conflict. -/
theorem insert_tree_not_idempotent :
    ¬ (insert_tree fooTreeStore fooTree).2 = .ok fooTree.id ∧
      (insert_tree fooTreeStore fooTree).2 = .error "UNIQUE constraint failed" := by
  constructor
  · intro h
    have h2 : (Except.error "UNIQUE constraint failed" : Except String Digest) =
        .ok fooTree.id := h
    cases h2
  · rfl

/-- C7 (amended): a duplicate insert_blob succeeds, returns the existing
digest, and leaves the store unchanged; but a duplicate insert_tree of a
non-empty tree already in the store FAILS with a primary-key conflict
error, the transaction rolling back so the store is left unchanged. -/
theorem duplicate_insert_behavior (s : Store) (hwf : WF s) :
    (∀ (b : Bytes) (s1 : Store) (d : Digest), insert_blob s b = (s1, .ok d) →
      insert_blob s1 b = (s1, .ok d)) ∧
    (∀ (t : Tree) (s1 : Store) (d : Digest),
      t.children ≠ [] →
      insert_tree s t = (s1, .ok d) →
      (insert_tree s1 t).1 = s1 ∧
        (insert_tree s1 t).2 = .error "UNIQUE constraint failed") := by
  constructor
  · intro b s1 d h
    by_cases h1 : countBlobRows s (Digest.content b) = 1
    · have hb := insert_blob_exists_eq s b h1
      rw [hb] at h
      injection h with hs hd
      injection hd with hd
      subst hs
      subst hd
      exact insert_blob_exists_eq s b h1
    · have hz : countBlobRows s (Digest.content b) = 0 := by
        have := hwf.pk_blobs (Digest.content b)
        omega
      by_cases hsmall : b.length < LARGE_BLOB_THRESHOLD
      · have hb : insert_blob s b =
            ({ s with blobs := s.blobs ++ [⟨Digest.content b, some b⟩] },
              .ok (Digest.content b)) := by
          simp [insert_blob, h1, hsmall, beq_iff_eq]
        rw [hb] at h
        injection h with hs hd
        injection hd with hd
        subst hs
        subst hd
        refine insert_blob_exists_eq _ b ?_
        rw [countBlobRows] at hz ⊢
        rw [List.countP_append, hz]
        simp [List.countP_cons]
      · cases hro : sidecarIsReadonly s (Digest.content b) with
        | true =>
          have hb : insert_blob s b = (s, .error "creating file") := by
            simp [insert_blob, h1, hsmall, hro, beq_iff_eq]
          rw [hb] at h
          injection h with _ hd
          cases hd
        | false =>
          have hb : insert_blob s b =
              ({ s with
                  blobs := s.blobs ++ [⟨Digest.content b, none⟩],
                  sidecars := setSidecar s.sidecars (Digest.content b) b true },
                .ok (Digest.content b)) := by
            simp [insert_blob, h1, hsmall, hro, beq_iff_eq]
          rw [hb] at h
          injection h with hs hd
          injection hd with hd
          subst hs
          subst hd
          refine insert_blob_exists_eq _ b ?_
          rw [countBlobRows] at hz ⊢
          rw [List.countP_append, hz]
          simp [List.countP_cons]
  · intro t s1 d hne h
    have hlen0 : ¬ t.len = 0 := by
      rw [Tree.len]
      intro h0
      exact hne (List.eq_nil_of_length_eq_zero h0)
    cases hres : insertTreeRows s t.id t.children s.trees with
    | error e =>
      have heq := insert_tree_eq_of_rows_error s t e hlen0 hres
      rw [heq] at h
      injection h with _ hd
      cases hd
    | ok rows =>
      have heq := insert_tree_eq_of_rows_ok s t rows hlen0 hres
      rw [heq] at h
      injection h with hs hd
      injection hd with hd
      subst hs
      subst hd
      have hrows := insertTreeRows_ok_rows s t.id t.children s.trees rows hres
      obtain ⟨c0, rest, hch⟩ : ∃ c0 rest, t.children = c0 :: rest := by
        cases hct : t.children with
        | nil => exact absurd hct hne
        | cons a l => exact ⟨a, l, rfl⟩
      have hmem0 : mkTreeRow t.id c0 ∈ rows := by
        rw [hrows, hch, List.map_cons]
        exact List.mem_append_right _ (List.mem_cons_self _ _)
      have hkey : (rows.any
          fun r => decide (r.tree_id = t.id) && decide (r.child_name = c0.1)) = true := by
        rw [List.any_eq_true]
        exact ⟨mkTreeRow t.id c0, hmem0, by simp [mkTreeRow]⟩
      rw [hch] at hres
      simp only [insertTreeRows] at hres
      have hres2 : insertTreeRows ({ s with trees := rows }) t.id t.children rows =
          .error "UNIQUE constraint failed" := by
        rw [hch]
        simp only [insertTreeRows]
        cases hcnt : c0.2.2 with
        | blob e =>
          have hcb : (countBlobRows s c0.2.1 == 1) = true := by
            by_contra hcb0
            rw [childCheck] at hres
            rw [hcnt] at hres
            simp only [Bool.not_eq_true] at hcb0
            rw [hcb0] at hres
            simp at hres
          have hchk2 : childCheck ({ s with trees := rows }) rows c0 = .ok () := by
            rw [childCheck, hcnt]
            have : countBlobRows ({ s with trees := rows }) c0.2.1 =
                countBlobRows s c0.2.1 := rfl
            rw [this, hcb]
            rfl
          rw [hchk2]
          rw [if_pos hkey]
        | tree =>
          have hcb : 0 < countTreeRows s.trees c0.2.1 := by
            by_contra hcb0
            rw [childCheck] at hres
            rw [hcnt] at hres
            rw [if_neg hcb0] at hres
            simp at hres
          have hgrow : 0 < countTreeRows rows c0.2.1 := by
            rw [hrows, countTreeRows, List.countP_append]
            rw [countTreeRows] at hcb
            omega
          have hchk2 : childCheck ({ s with trees := rows }) rows c0 = .ok () := by
            rw [childCheck, hcnt]
            rw [if_pos hgrow]
          rw [hchk2]
          rw [if_pos hkey]
      have hfinal := insert_tree_eq_of_rows_error ({ s with trees := rows }) t
        "UNIQUE constraint failed" hlen0 hres2
      rw [hfinal]
      exact ⟨rfl, rfl⟩

/-- Witness for the amended C7 theorem: the foo blob inserted twice into
an empty store, and the one-child tree inserted twice into the store
holding the blob. -/
theorem duplicate_insert_behavior_witness :
    (WF fooStore ∧
      insert_blob emptyStore fooBytes = (fooStore, .ok (Digest.content fooBytes))) ∧
      (insert_blob fooStore fooBytes = (fooStore, .ok (Digest.content fooBytes)) ∧
        fooTree.children ≠ [] ∧
        insert_tree fooStore fooTree = (fooTreeStore, .ok fooTree.id) ∧
        (insert_tree fooTreeStore fooTree).1 = fooTreeStore ∧
        (insert_tree fooTreeStore fooTree).2 = .error "UNIQUE constraint failed") := by
  have hwf : WF fooStore := by
    constructor
    · intro r hr data hd
      simp [fooStore, insert_blob, emptyStore, countBlobRows, fooBytes,
        LARGE_BLOB_THRESHOLD] at hr
      rw [hr] at hd
      injection hd with hd
      subst hd
      rw [hr]
      exact ⟨rfl, by decide⟩
    · intro r hr hd
      simp [fooStore, insert_blob, emptyStore, countBlobRows, fooBytes,
        LARGE_BLOB_THRESHOLD] at hr
      rw [hr] at hd
      cases hd
    · intro e he
      simp [fooStore, insert_blob, emptyStore, countBlobRows, fooBytes,
        LARGE_BLOB_THRESHOLD] at he
    · intro d
      have : fooStore.blobs = [⟨Digest.content fooBytes, some fooBytes⟩] := by decide
      rw [countBlobRows, this]
      rw [List.countP_cons]
      simp [List.countP_nil]
      split <;> omega
  have hb1 : insert_blob emptyStore fooBytes = (fooStore, .ok (Digest.content fooBytes)) :=
    rfl
  have ht1 : insert_tree fooStore fooTree = (fooTreeStore, .ok fooTree.id) := rfl
  refine ⟨⟨hwf, hb1⟩, ?_, by decide, ht1, ?_, ?_⟩
  · exact (duplicate_insert_behavior emptyStore wf_empty).1 fooBytes fooStore
      (Digest.content fooBytes) hb1
  · exact ((duplicate_insert_behavior fooStore hwf).2 fooTree fooTreeStore
      fooTree.id (by decide) ht1).1
  · exact ((duplicate_insert_behavior fooStore hwf).2 fooTree fooTreeStore
      fooTree.id (by decide) ht1).2

end TreeDbSpec
